import Mathlib

/-!
Verification development for the micro-benchmarking harness of the
low-level-performance book repository.

The embedded code comes from three source files:

* `src/book_linux.py` — the counter catalog (`MEASUREMENTS`) and the
  counter aggregator (`get_measurements`);
* `src/book_magics.py` — the clock calibrator (`ns_per_iteration`), the
  benchmark runner (`_benchmark_lines`, `compare_timing`), and the
  non-Linux fallback `get_measurements`;
* `src/book_common.py` — `measure_peak_memory` (tracemalloc-based).

Modelling conventions:

* Python integers are `Int` (arbitrary precision).  Python `//` is floor
  division and is rendered as `Int.fdiv`; `int(x / 10)` (float division
  then truncation toward zero) is idealized as exact division with
  truncation, `Int.tdiv x 10`.
* Python exceptions are rendered with `Except PyErr`.  A raising
  statement short-circuits the rest of the function body, exactly as in
  the source (there are no try/finally blocks anywhere in the embedded
  code, so cleanup statements after a raising call are simply skipped).
* Snippet execution, the `perf_counter_ns` timer, the `py_perf_event`
  counter facility and the tracemalloc allocation tracker are external
  collaborators; they are modelled as oracle records.  The counter
  facility's contract (spec section 6) is that it returns one value per
  requested counter, positionally aligned; this is modelled by giving the
  oracle a value function `RawCounter → ℚ` for the single measurement
  pass it performs.
* Derivation formulas in the catalog use Python floats
  (`round(x, 1)`, `/`); they are idealized over `ℚ` with a half-to-even
  rounding, and Python's ZeroDivisionError on `x / 0` is idealized as the
  `ℚ` convention `x / 0 = 0`.  No claim in this development depends on a
  derived numeric value at a zero denominator.
* Python's `set` type is modelled by `Finset`; the arbitrary iteration
  order of `list(event_set)` is modelled by quantifying over an
  enumeration function `enumOf : Finset RawCounter → List RawCounter`,
  constrained (where needed) to produce a duplicate-free list with
  exactly the members of the set.
-/

namespace LLPerf

/-- Python exceptions that the embedded code can raise. -/
inductive PyErr where
  | snippetError (msg : String)
  | zeroDivisionError
  | keyErrorKind (kind : String)
  | keyErrorEvent
deriving DecidableEq, Repr

/-- The raw hardware counter identifiers used by `MEASUREMENTS` in
`src/book_linux.py` (`py_perf_event`'s `Hardware.*`, `Cache(...)` and
`Raw(...)` event descriptors).  Equality and hashing are well defined on
these values, which is what the set-based deduplication relies on. -/
inductive RawCounter where
  | instructions
  | cache_references
  | cache_misses
  | branch_instructions
  | branch_misses
  | l1d_read_access
  | l1d_read_miss
  | ll_read_access
  | ll_read_miss
  | raw (code : Nat)
deriving DecidableEq, Repr

/-- Round a rational to the nearest integer, ties to even (the rounding
used by Python's builtin `round`). -/
def roundHalfEvenInt (q : ℚ) : ℤ :=
  if Int.fract q < 1 / 2 then ⌊q⌋
  else if 1 / 2 < Int.fract q then ⌊q⌋ + 1
  else if ⌊q⌋ % 2 = 0 then ⌊q⌋ else ⌊q⌋ + 1

/-- Python's `round(x, 1)`, idealized over `ℚ`. -/
def pyRound1 (q : ℚ) : ℚ := (roundHalfEvenInt (q * 10) : ℚ) / 10

/-- Derivation formula `lambda x: x` (also `lambda instructions:
instructions`, `lambda refs: refs`, `lambda ints: ints`): identity on a
single raw counter value.  The catch-all branch stands for the TypeError
Python would raise on an arity mismatch; it is unreachable in
`get_measurements` (the argument vector always has the declared length). -/
def pp_single (args : List ℚ) : ℚ :=
  match args with
  | [x] => x
  | _ => 0

/-- Derivation formula `lambda refs, misses: round((misses / refs) * 100, 1)`
(idealized over `ℚ`). -/
def pp_miss_pct (args : List ℚ) : ℚ :=
  match args with
  | [refs, misses] => pyRound1 ((misses / refs) * 100)
  | _ => 0

/-- Derivation formula `lambda double, single: double + single`. -/
def pp_sum2 (args : List ℚ) : ℚ :=
  match args with
  | [d, s] => d + s
  | _ => 0

/-- The counter catalog `MEASUREMENTS` of `src/book_linux.py`: an
association list from measurement-kind identifier to the ordered list of
raw counters it needs and its derivation formula. -/
def MEASUREMENTS : List (String × (List RawCounter × (List ℚ → ℚ))) :=
  [ ("instructions", ([RawCounter.instructions], pp_single)),
    ("memory_cache_miss",
      ([RawCounter.cache_references, RawCounter.cache_misses], pp_miss_pct)),
    ("memory_cache_refs", ([RawCounter.cache_references], pp_single)),
    ("l1_memory_cache_miss",
      ([RawCounter.l1d_read_access, RawCounter.l1d_read_miss], pp_miss_pct)),
    ("l1_memory_cache_refs", ([RawCounter.l1d_read_access], pp_single)),
    ("ll_memory_cache_miss",
      ([RawCounter.ll_read_access, RawCounter.ll_read_miss], pp_miss_pct)),
    ("ll_memory_cache_refs", ([RawCounter.ll_read_access], pp_single)),
    ("branch_mispredictions",
      ([RawCounter.branch_instructions, RawCounter.branch_misses], pp_miss_pct)),
    ("branches", ([RawCounter.branch_instructions], pp_single)),
    ("simd_256bit", ([RawCounter.raw 0x10C7, RawCounter.raw 0x20C7], pp_sum2)),
    ("simd_128bit", ([RawCounter.raw 0x4C7, RawCounter.raw 0x8C7], pp_sum2)),
    -- Handled specially (empty counter list; the formula is never invoked
    -- by `get_measurements`):
    ("peak_memory", ([], pp_single)) ]

/-- Python's `MEASUREMENTS[m]`: dictionary lookup; `none` stands for the
KeyError raised on an unregistered kind. -/
def lookupMeas (m : String) : Option (List RawCounter × (List ℚ → ℚ)) :=
  MEASUREMENTS.lookup m

/-- First loop of `get_measurements` (`src/book_linux.py` lines 79-81):
`for m in measurement_keys: events, _ = MEASUREMENTS[m]; event_set |= set(events)`,
starting from accumulator `acc`.  A lookup of an unregistered kind raises
KeyError and aborts the loop. -/
def buildEventSet_from (acc : Finset RawCounter) :
    List String → Except PyErr (Finset RawCounter)
  | [] => Except.ok acc
  | m :: rest =>
    match lookupMeas m with
    | none => Except.error (PyErr.keyErrorKind m)
    | some (events, _) => buildEventSet_from (acc ∪ events.toFinset) rest

/-- The `event_set` computed by `get_measurements` from an empty initial
set. -/
def buildEventSet (keys : List String) : Except PyErr (Finset RawCounter) :=
  buildEventSet_from ∅ keys

/-- The same union, as a total function (defined for all inputs, ignoring
unregistered kinds); used to state what `buildEventSet` returns on its
success path. -/
def eventFinset_from (acc : Finset RawCounter) : List String → Finset RawCounter
  | [] => acc
  | m :: rest =>
    eventFinset_from
      (acc ∪ (match lookupMeas m with
              | some (events, _) => events.toFinset
              | none => ∅)) rest

/-- Total form of the `event_set` union of `get_measurements`. -/
def eventFinset (keys : List String) : Finset RawCounter :=
  eventFinset_from ∅ keys

/-- The `event_counts` dictionary of `get_measurements` (lines 84-85):
built by `for event, counter in zip(event_list, measure(event_list, ...)):
event_counts[event] = counter`.  Under the counter facility's positional
alignment contract (the value observed for counter `e` in the pass is
`cv e`), the dictionary maps exactly the members of `event_list`, and a
lookup of any other counter raises KeyError (`none`). -/
def event_counts (event_list : List RawCounter) (cv : RawCounter → ℚ) :
    RawCounter → Option ℚ :=
  fun e => if e ∈ event_list then some (cv e) else none

/-- The list comprehension `[event_counts[ev] for ev in events]` of line 94:
gathers the value of every declared counter of a kind, in declaration
order; a missing key raises KeyError (`none`). -/
def gather (ec : RawCounter → Option ℚ) : List RawCounter → Option (List ℚ)
  | [] => some []
  | e :: rest =>
    match ec e with
    | none => none
    | some v => (gather ec rest).map (fun l => v :: l)

/-- Observable trace of one `measure_peak_memory` call: whether
tracemalloc tracking was started/stopped and how many times the snippet
was executed. -/
structure TraceLog where
  started : Bool
  stopped : Bool
  execCount : Nat
deriving DecidableEq, Repr

/-- Model of `measure_peak_memory` from `src/book_common.py`: start tracemalloc,
execute the snippet once (`snippetOnce` is the outcome of that single
`exec`), read the traced peak, stop tracking, return the peak.  If the
snippet raises, the error propagates (and, faithfully to the source's
lack of try/finally, `tracemalloc.stop()` is never reached). -/
def measure_peak_memory (snippetOnce : Except PyErr Unit) (tracedPeak : ℤ) :
    Except PyErr ℤ × TraceLog :=
  match snippetOnce with
  | Except.error e => (Except.error e, ⟨true, false, 1⟩)
  | Except.ok _ => (Except.ok tracedPeak, ⟨true, true, 1⟩)

/-- External collaborators of the Linux `get_measurements`, for one
snippet: `measureRun el` is the single `measure(event_list, exec, line,
local_ns)` call of line 84 (it executes the snippet under the counters
`el` and, per the facility's contract, yields one value per requested
counter, rendered as a value function); `snippetOnce` is the outcome of
one bare `exec` of the snippet (used by tracemalloc); `tracedPeak` is the
allocation tracker's peak reading. -/
structure CounterOracle where
  measureRun : List RawCounter → Except PyErr (RawCounter → ℚ)
  snippetOnce : Except PyErr Unit
  tracedPeak : ℤ

/-- Observable trace of one `get_measurements` call: the argument of each
`measure` call made, and how many times `measure_peak_memory` ran. -/
structure MeasLog where
  measureCalls : List (List RawCounter)
  peakCalls : Nat
deriving DecidableEq, Repr

/-- Third loop of `get_measurements` (lines 87-95): for each requested
kind in request order, either run the special peak-memory measurement or
gather the kind's declared counters from `event_counts` and apply its
derivation formula.  Returns the result list (or the first error) along
with the number of `measure_peak_memory` calls performed before
returning. -/
def phase3 (ec : RawCounter → Option ℚ) (peakResult : Except PyErr ℤ) :
    List String → Except PyErr (List ℚ) × Nat
  | [] => (Except.ok [], 0)
  | m :: rest =>
    if m = "peak_memory" then
      match peakResult with
      | Except.error e => (Except.error e, 1)
      | Except.ok p =>
        match phase3 ec peakResult rest with
        | (Except.error e, n) => (Except.error e, n + 1)
        | (Except.ok l, n) => (Except.ok ((p : ℚ) :: l), n + 1)
    else
      match lookupMeas m with
      | none => (Except.error (PyErr.keyErrorKind m), 0)
      | some (events, post_process) =>
        match gather ec events with
        | none => (Except.error PyErr.keyErrorEvent, 0)
        | some args =>
          match phase3 ec peakResult rest with
          | (Except.error e, n) => (Except.error e, n)
          | (Except.ok l, n) => (Except.ok (post_process args :: l), n)

/-- Model of `get_measurements` from `src/book_linux.py` (Linux path), with its
observable execution trace.  `enumOf` models Python's `list(event_set)`
(an arbitrary enumeration of the set).  Phase 1 builds `event_set` (an
unregistered kind raises KeyError here, before anything runs); phase 2
performs the single `measure` call on `event_list` and builds
`event_counts`; phase 3 derives each requested kind's value in request
order. -/
def get_measurements (enumOf : Finset RawCounter → List RawCounter)
    (O : CounterOracle) (keys : List String) :
    Except PyErr (List ℚ) × MeasLog :=
  match buildEventSet keys with
  | Except.error e => (Except.error e, ⟨[], 0⟩)
  | Except.ok eset =>
    let event_list := enumOf eset
    match O.measureRun event_list with
    | Except.error e => (Except.error e, ⟨[event_list], 0⟩)
    | Except.ok cv =>
      let ec := event_counts event_list cv
      let peakResult := (measure_peak_memory O.snippetOnce O.tracedPeak).1
      match phase3 ec peakResult keys with
      | (r, n) => (r, ⟨[event_list], n⟩)

/-- The value `get_measurements` produces for one requested kind on its
success path: the traced peak for `"peak_memory"`, otherwise the kind's
derivation formula applied to its declared counters' observed values in
declaration order. -/
def deriveVal (cv : RawCounter → ℚ) (peak : ℤ) (m : String) : ℚ :=
  if m = "peak_memory" then (peak : ℚ)
  else
    match lookupMeas m with
    | some (events, post_process) => post_process (events.map cv)
    | none => 0

/-- Result entries of the non-Linux fallback `get_measurements`
(`src/book_magics.py` lines 29-38): Python's `list[int | str]`. -/
inductive FallbackVal where
  | num (n : ℤ)
  | text (s : String)
deriving DecidableEq, Repr

/-- The non-Linux fallback `get_measurements` of `src/book_magics.py`
lines 29-38: peak memory is measured via tracemalloc (`peakResult` is the
outcome of that call), every other key — registered on Linux or not —
yields the string `"N/A, Linux only"`; no key is ever rejected. -/
def get_measurements_fallback (peakResult : Except PyErr ℤ) :
    List String → Except PyErr (List FallbackVal)
  | [] => Except.ok []
  | k :: rest =>
    match
      (if k = "peak_memory" then peakResult.map FallbackVal.num
       else Except.ok (FallbackVal.text "N/A, Linux only")) with
    | Except.error e => Except.error e
    | Except.ok v =>
      (get_measurements_fallback peakResult rest).map (fun l => v :: l)

/-- Timing collaborator for one snippet: `probe` is the outcome of
`timeit(line, globals=globals, number=10, timer=perf_counter_ns)` (total
elapsed nanoseconds over 10 back-to-back executions, or the snippet's
error), and `run n` is the outcome of the same call with `number=n`.
`perf_counter_ns` is monotonic, so real elapsed values are nonnegative;
the model does not force this, theorems assume it where needed. -/
structure TimingOracle where
  probe : Except PyErr ℤ
  run : ℤ → Except PyErr ℤ

/-- Model of `ns_per_iteration` from `src/book_magics.py` lines 53-67, with the gc
flag it leaves behind (`true` = automatic garbage collection enabled).
The function disables gc, probes, picks the iteration count, runs the
full measurement and re-enables gc — but there is no try/finally, so any
raising call (the probe, the `10_000_000 // 0` on a zero estimate, or the
full run) skips `gc.enable()`. -/
def ns_per_iteration (T : TimingOracle) : Except PyErr ℤ × Bool :=
  -- gc.disable()
  match T.probe with
  | Except.error e => (Except.error e, false)
  | Except.ok elapsed =>
    -- estimated_ns = int(timeit(line, ..., number=10, timer=perf_counter_ns) / 10)
    let estimated_ns : ℤ := Int.tdiv elapsed 10
    -- iterations = max(10_000_000 // estimated_ns, 100)  (ZeroDivisionError if 0)
    if estimated_ns = 0 then (Except.error PyErr.zeroDivisionError, false)
    else
      let iterations0 : ℤ := max (Int.fdiv 10000000 estimated_ns) 100
      -- if estimated_ns > 10_000_000: iterations = 10
      let iterations : ℤ := if 10000000 < estimated_ns then 10 else iterations0
      match T.run iterations with
      | Except.error e => (Except.error e, false)
      | Except.ok total =>
        -- result = timeit(...) // iterations; gc.enable(); return result
        (Except.ok (Int.fdiv total iterations), true)

/-- Python's `str.strip()`: remove leading and trailing whitespace from
the line.  (Executable model over the character list; Python also strips
some non-ASCII unicode whitespace, which never occurs in benchmark
cells.) -/
def pyStrip (s : String) : String :=
  String.mk
    (((s.data.dropWhile Char.isWhitespace).reverse.dropWhile
        Char.isWhitespace).reverse)

/-- One row assembled by `_benchmark_lines`: the backticked stripped line,
its per-iteration nanosecond estimate, and the requested measurements. -/
structure BenchmarkRow where
  label : String
  elapsed_ns : ℤ
  meas : List ℚ
deriving DecidableEq, Repr

/-- All external collaborators for one snippet line (keyed by the
stripped line text, which is what the source passes down). -/
structure LineOracle where
  timing : TimingOracle
  counters : CounterOracle

/-- Model of `_benchmark_lines` from `src/book_magics.py` lines 113-122.  The cell
is given already split into lines (`cell.splitlines()`); Python's
`str.strip()` is modelled by `pyStrip`.  Blank lines are skipped;
each remaining line is calibrated and, when measurements were requested,
measured; the first error anywhere aborts the whole batch (the partially
built row list is discarded with the raised exception, exactly as in the
source). -/
def benchmark_lines (enumOf : Finset RawCounter → List RawCounter)
    (O : String → LineOracle) (cell : List String)
    (measurements : List String) : Except PyErr (List BenchmarkRow) :=
  match cell with
  | [] => Except.ok []
  | line :: rest =>
    let s := pyStrip line
    if s = "" then benchmark_lines enumOf O rest measurements
    else
      match (ns_per_iteration (O s).timing).1 with
      | Except.error e => Except.error e
      | Except.ok ns =>
        match
          (if measurements.isEmpty then Except.ok []
           else (get_measurements enumOf (O s).counters measurements).1) with
        | Except.error e => Except.error e
        | Except.ok vals =>
          match benchmark_lines enumOf O rest measurements with
          | Except.error e => Except.error e
          | Except.ok rows =>
            Except.ok ({ label := "`" ++ s ++ "`", elapsed_ns := ns,
                         meas := vals } :: rows)

/-- The `compare_timing` cell magic of `src/book_magics.py` lines 151-175,
reduced to its measurement core: it sets `numba_config.DISABLE_JIT = True`
(overwriting the pre-call value `jit_pre`), runs `_benchmark_lines`, and
sets `DISABLE_JIT = False` at the end — with no try/finally, so when a
snippet raises the flag stays `True` and the error propagates.  The
second component is the `DISABLE_JIT` value after the call.  (Unit
scaling and Markdown table rendering of the rows are presentation-layer
glue, out of scope.) -/
def compare_timing (enumOf : Finset RawCounter → List RawCounter)
    (O : String → LineOracle) (cell : List String)
    (measurements : List String) (jit_pre : Bool) :
    Except PyErr (List BenchmarkRow) × Bool :=
  -- numba_config.DISABLE_JIT = True
  match benchmark_lines enumOf O cell measurements with
  | Except.error e => (Except.error e, true)
  | Except.ok rows => (Except.ok rows, false)  -- numba_config.DISABLE_JIT = False

/-- A duplicate-free list whose members are exactly those of a finset:
what Python's `list(event_set)` yields, in whatever order. -/
def IsSetList (l : List RawCounter) (s : Finset RawCounter) : Prop :=
  l.Nodup ∧ l.toFinset = s

instance (l : List RawCounter) (s : Finset RawCounter) :
    Decidable (IsSetList l s) := by
  unfold IsSetList; infer_instance

/-!  Theorems.  Shared helper lemmas about the aggregator first. -/

/-- On all-registered keys, the first loop of `get_measurements` succeeds
and returns the union of the declared counter sets. -/
theorem buildEventSet_from_ok (keys : List String) :
    ∀ acc, (∀ m ∈ keys, (lookupMeas m).isSome) →
      buildEventSet_from acc keys = Except.ok (eventFinset_from acc keys) := by
  induction keys with
  | nil => intro acc _; rfl
  | cons m rest ih =>
    intro acc hreg
    have hm : (lookupMeas m).isSome := hreg m (by simp)
    cases hl : lookupMeas m with
    | none => rw [hl] at hm; simp at hm
    | some pr =>
      cases pr with
      | mk events pp =>
        simp only [buildEventSet_from, eventFinset_from, hl]
        exact ih _ (fun x hx => hreg x (by simp [hx]))

/-- The accumulated union only grows. -/
theorem subset_eventFinset_from (keys : List String) :
    ∀ acc, acc ⊆ eventFinset_from acc keys := by
  induction keys with
  | nil => intro acc; simp [eventFinset_from]
  | cons m rest ih =>
    intro acc
    simp only [eventFinset_from]
    exact Finset.Subset.trans Finset.subset_union_left (ih _)

/-- Every counter declared by a requested (registered) kind is in the
union `event_set`. -/
theorem mem_eventFinset_from_of (keys : List String) :
    ∀ (acc : Finset RawCounter) (m : String) (events : List RawCounter)
      (pp : List ℚ → ℚ), m ∈ keys → lookupMeas m = some (events, pp) →
      ∀ c ∈ events, c ∈ eventFinset_from acc keys := by
  induction keys with
  | nil => intro _ _ _ _ hm; cases hm
  | cons k rest ih =>
    intro acc m events pp hm hl c hc
    rcases List.mem_cons.1 hm with rfl | hmem
    · simp only [eventFinset_from, hl]
      apply subset_eventFinset_from
      exact Finset.mem_union_right _ (by simp [hc])
    · simp only [eventFinset_from]
      exact ih _ m events pp hmem hl c hc

/-- The gathered argument vector for a kind whose declared counters all
lie in `event_list` is exactly the observed values in declaration
order. -/
theorem gather_eq_map (el : List RawCounter) (cv : RawCounter → ℚ) :
    ∀ events : List RawCounter, (∀ e ∈ events, e ∈ el) →
      gather (event_counts el cv) events = some (events.map cv) := by
  intro events
  induction events with
  | nil => intro _; rfl
  | cons e rest ih =>
    intro h
    have he : e ∈ el := h e (by simp)
    simp [gather, event_counts, he, ih (fun x hx => h x (by simp [hx]))]

/-- Success path of the third loop of `get_measurements`: every requested
kind, in request order, is derived from its declared counters (the peak
kind from the allocation tracker), and `measure_peak_memory` runs once
per `"peak_memory"` occurrence. -/
theorem phase3_ok (el : List RawCounter) (cv : RawCounter → ℚ) (p : ℤ) :
    ∀ keys : List String,
      (∀ m ∈ keys, (lookupMeas m).isSome) →
      (∀ m ∈ keys, ∀ events pp, lookupMeas m = some (events, pp) →
        ∀ e ∈ events, e ∈ el) →
      phase3 (event_counts el cv) (Except.ok p) keys =
        (Except.ok (keys.map (deriveVal cv p)), keys.count "peak_memory") := by
  intro keys
  induction keys with
  | nil => intro _ _; rfl
  | cons m rest ih =>
    intro hreg hsub
    have ihr := ih (fun x hx => hreg x (List.mem_cons_of_mem _ hx))
      (fun x hx => hsub x (List.mem_cons_of_mem _ hx))
    by_cases hp : m = "peak_memory"
    · subst hp
      simp [phase3, ihr, deriveVal, List.count_cons]
    · cases hl : lookupMeas m with
      | none =>
        have hm := hreg m (by simp)
        rw [hl] at hm
        simp at hm
      | some pr =>
        cases pr with
        | mk events pp =>
          have hgather := gather_eq_map el cv events (hsub m (by simp) events pp hl)
          simp [phase3, hp, hl, hgather, ihr, deriveVal, List.count_cons]

/-- Success path of `get_measurements`: exactly one `measure` call (on an
enumeration of the deduplicated counter union), one peak-memory
measurement per `"peak_memory"` occurrence, and the result list maps each
requested kind, in request order, to its derived value. -/
theorem get_measurements_ok (enumOf : Finset RawCounter → List RawCounter)
    (O : CounterOracle) (keys : List String) (cv : RawCounter → ℚ)
    (hreg : ∀ m ∈ keys, (lookupMeas m).isSome)
    (hset : IsSetList (enumOf (eventFinset keys)) (eventFinset keys))
    (hm : O.measureRun (enumOf (eventFinset keys)) = Except.ok cv)
    (hs : O.snippetOnce = Except.ok ()) :
    get_measurements enumOf O keys =
      (Except.ok (keys.map (deriveVal cv O.tracedPeak)),
       ⟨[enumOf (eventFinset keys)], keys.count "peak_memory"⟩) := by
  have hb : buildEventSet keys = Except.ok (eventFinset keys) :=
    buildEventSet_from_ok keys ∅ hreg
  have hsub : ∀ m ∈ keys, ∀ events pp, lookupMeas m = some (events, pp) →
      ∀ e ∈ events, e ∈ enumOf (eventFinset keys) := by
    intro m hmk events pp hl e he
    have hmem : e ∈ eventFinset keys :=
      mem_eventFinset_from_of keys ∅ m events pp hmk hl e he
    rw [← hset.2] at hmem
    simpa using hmem
  have hph := phase3_ok (enumOf (eventFinset keys)) cv O.tracedPeak keys hreg hsub
  simp [get_measurements, hb, hm, hs, measure_peak_memory, hph]

/-- Phase-1 failure of `get_measurements`: the first unregistered kind
raises KeyError before the `measure` call and before any peak-memory
measurement. -/
theorem buildEventSet_from_err (pre : List String) :
    ∀ (acc : Finset RawCounter) (m0 : String) (rest : List String),
      (∀ m ∈ pre, (lookupMeas m).isSome) → lookupMeas m0 = none →
      buildEventSet_from acc (pre ++ m0 :: rest) =
        Except.error (PyErr.keyErrorKind m0) := by
  induction pre with
  | nil => intro acc m0 rest _ h0; simp [buildEventSet_from, h0]
  | cons k pre ih =>
    intro acc m0 rest hreg h0
    have hk := hreg k (by simp)
    cases hl : lookupMeas k with
    | none => rw [hl] at hk; simp at hk
    | some pr =>
      cases pr with
      | mk ev pp =>
        simp only [List.cons_append, buildEventSet_from, hl]
        exact ih _ m0 rest (fun x hx => hreg x (by simp [hx])) h0

/-- The non-Linux fallback always succeeds when peak measurement does,
and maps each key uniformly. -/
theorem get_measurements_fallback_ok (p : ℤ) :
    ∀ keys : List String,
      get_measurements_fallback (Except.ok p) keys =
        Except.ok (keys.map (fun k =>
          if k = "peak_memory" then FallbackVal.num p
          else FallbackVal.text "N/A, Linux only")) := by
  intro keys
  induction keys with
  | nil => rfl
  | cons k rest ih =>
    by_cases hk : k = "peak_memory" <;>
      simp [get_measurements_fallback, hk, ih, Except.map]

/-- The element sitting right after a prefix. -/
theorem getElem?_append_cons {α : Type} (l : List α) (a : α) (t : List α) :
    (l ++ a :: t)[l.length]? = some a := by
  induction l with
  | nil => simp
  | cons x l ih => simpa using ih

/-- The peak-memory kind contributes no counters: dropping every
`"peak_memory"` occurrence from the request leaves the counter union
unchanged. -/
theorem eventFinset_from_filter_peak :
    ∀ (keys : List String) (acc : Finset RawCounter),
      eventFinset_from acc keys =
        eventFinset_from acc (keys.filter (fun m => !(m == "peak_memory"))) := by
  intro keys
  induction keys with
  | nil => intro acc; rfl
  | cons m rest ih =>
    intro acc
    by_cases hp : m = "peak_memory"
    · subst hp
      have hl : lookupMeas "peak_memory" = some ([], pp_single) := rfl
      simp only [eventFinset_from, hl, List.filter_cons]
      simp [ih]
    · simp only [eventFinset_from, List.filter_cons]
      simp [hp, ih, eventFinset_from]

/-- Same statement for the outer `eventFinset`. -/
theorem eventFinset_filter_peak (keys : List String) :
    eventFinset keys =
      eventFinset (keys.filter (fun m => !(m == "peak_memory"))) :=
  eventFinset_from_filter_peak keys ∅

/-!  Claim theorems. -/

/-- C1, counterexample.  The claim says gc is re-enabled and the
JIT-disable flag restored to its pre-call value on *every* exit path,
including when a snippet raises.  Concretely: a snippet that raises during
the calibration probe leaves gc disabled (`ns_per_iteration` exits with
the gc flag `false`), and a `compare_timing` call entered with
`DISABLE_JIT = false` whose (single, non-blank) line raises exits with the
error propagated and `DISABLE_JIT = true`, not the pre-call `false`. -/
theorem C1_toggle_restoration_counterexample :
    (ns_per_iteration
      ⟨Except.error (PyErr.snippetError "boom"), fun _ => Except.ok 0⟩).2 = false
    ∧ compare_timing (fun _ => [])
        (fun _ =>
          ⟨⟨Except.error (PyErr.snippetError "boom"), fun _ => Except.ok 0⟩,
           ⟨fun _ => Except.ok (fun _ => 0), Except.ok (), 0⟩⟩)
        ["f()"] [] false
      = (Except.error (PyErr.snippetError "boom"), true) :=
  ⟨rfl, rfl⟩

/-- C1, amended.  The gc toggle is re-enabled exactly on the normal
return path of `ns_per_iteration`: if the probe raises, the iteration
computation divides by zero, or the full run raises, gc stays disabled.
Likewise `compare_timing` sets the JIT-disable flag to `False` (not to
its pre-call value) exactly on normal completion, and leaves it `True`
when a snippet inside the batch raises. -/
theorem C1_toggle_restoration_amended (T : TimingOracle)
    (enumOf : Finset RawCounter → List RawCounter) (O : String → LineOracle)
    (cell : List String) (measurements : List String) (jit_pre : Bool) :
    (ns_per_iteration T).2 =
      (match (ns_per_iteration T).1 with
       | Except.ok _ => true
       | Except.error _ => false)
    ∧ (compare_timing enumOf O cell measurements jit_pre).2 =
      (match (compare_timing enumOf O cell measurements jit_pre).1 with
       | Except.ok _ => false
       | Except.error _ => true) := by
  constructor
  · cases hp : T.probe with
    | error e => simp [ns_per_iteration, hp]
    | ok elapsed =>
      by_cases h0 : Int.tdiv elapsed 10 = 0
      · simp [ns_per_iteration, hp, h0]
      · cases hr : T.run (if 10000000 < Int.tdiv elapsed 10 then 10
            else max (Int.fdiv 10000000 (Int.tdiv elapsed 10)) 100) with
        | error e => simp [ns_per_iteration, hp, h0, hr]
        | ok total => simp [ns_per_iteration, hp, h0, hr]
  · cases hb : benchmark_lines enumOf O cell measurements with
    | error e => simp [compare_timing, hb]
    | ok rows => simp [compare_timing, hb]

/-- C6: confirmed.  `ns_per_iteration` probes with 10 executions, takes
`estimated_ns` as the elapsed nanoseconds divided by 10 (truncated),
chooses `iterations = 10` when `estimated_ns > 10_000_000` and
`iterations = max(10_000_000 // estimated_ns, 100)` otherwise, and
returns the full run's total elapsed floor-divided by `iterations`.
(The source computes the `max` before the `> 10_000_000` test and then
overwrites; for every `estimated_ns > 0` the two formulations agree.) -/
theorem C6_calibration_formula (T : TimingOracle) (p total iterations : ℤ)
    (hp : T.probe = Except.ok p)
    (hest : 0 < Int.tdiv p 10)
    (hiter : iterations =
      (if 10000000 < Int.tdiv p 10 then 10
       else max (Int.fdiv 10000000 (Int.tdiv p 10)) 100))
    (hrun : T.run iterations = Except.ok total) :
    (ns_per_iteration T).1 = Except.ok (Int.fdiv total iterations) := by
  have h0 : Int.tdiv p 10 ≠ 0 := ne_of_gt hest
  simp [ns_per_iteration, hp, h0, ← hiter, hrun]

/-- C6 witness: a probe of 1000 ns over 10 runs gives
`estimated_ns = 100`, hence `iterations = max(10_000_000 // 100, 100) =
100_000`, and a full run of 5_000_000 ns reports `50` ns/iteration. -/
theorem C6_calibration_formula_witness :
    (⟨Except.ok 1000, fun _ => Except.ok 5000000⟩ : TimingOracle).probe
        = Except.ok 1000
    ∧ (100000 : ℤ) =
      (if 10000000 < Int.tdiv (1000 : ℤ) 10 then 10
       else max (Int.fdiv 10000000 (Int.tdiv (1000 : ℤ) 10)) 100)
    ∧ (ns_per_iteration ⟨Except.ok 1000, fun _ => Except.ok 5000000⟩).1
        = Except.ok (Int.fdiv 5000000 100000) :=
  ⟨rfl, by decide,
   C6_calibration_formula _ 1000 5000000 100000 rfl (by decide) (by decide) rfl⟩

/-- C7, counterexample.  The claim says every division performed by
`ns_per_iteration` is defined for every possible probe timing, including
a probe that averages to 0 ns.  In fact a probe whose 10 executions take
0 elapsed nanoseconds in total (snippet completing without raising) gives
`estimated_ns = 0`, and `10_000_000 // estimated_ns` raises
ZeroDivisionError. -/
theorem C7_total_counterexample :
    (ns_per_iteration ⟨Except.ok 0, fun _ => Except.ok 0⟩).1 =
      Except.error PyErr.zeroDivisionError :=
  rfl

/-- C7, amended.  When the probe completes without raising and averages
to at least 1 ns (total elapsed ≥ 10 ns over the 10 probe executions),
and the full run completes without raising with a nonnegative elapsed
total (the timer is monotonic), `ns_per_iteration` completes and its
result is a nonnegative integer.  A probe averaging to 0 ns instead
raises ZeroDivisionError (see the counterexample). -/
theorem C7_total_amended (T : TimingOracle) (p total iterations : ℤ)
    (hp : T.probe = Except.ok p) (hten : 10 ≤ p)
    (hiter : iterations =
      (if 10000000 < Int.tdiv p 10 then 10
       else max (Int.fdiv 10000000 (Int.tdiv p 10)) 100))
    (hrun : T.run iterations = Except.ok total) (htot : 0 ≤ total) :
    (ns_per_iteration T).1 = Except.ok (Int.fdiv total iterations)
    ∧ 0 ≤ Int.fdiv total iterations := by
  have hp0 : (0 : ℤ) ≤ p := le_trans (by norm_num) hten
  have hest : 0 < Int.tdiv p 10 := by
    rw [Int.tdiv_eq_ediv hp0 (by norm_num)]
    have h1 : (1 : ℤ) ≤ p / 10 := by
      rw [Int.le_ediv_iff_mul_le (by norm_num : (0 : ℤ) < 10)]
      linarith
    linarith
  have h0 : Int.tdiv p 10 ≠ 0 := ne_of_gt hest
  have hiterpos : 0 ≤ iterations := by
    rw [hiter]
    by_cases hc : 10000000 < Int.tdiv p 10
    · simp [hc]
    · simp only [if_neg hc]
      have : (100 : ℤ) ≤ max (Int.fdiv 10000000 (Int.tdiv p 10)) 100 :=
        le_max_right _ _
      linarith
  refine ⟨by simp [ns_per_iteration, hp, h0, ← hiter, hrun], ?_⟩
  exact Int.fdiv_nonneg htot hiterpos

/-- C7 witness: probe total 200 ns (estimated 20 ns/iteration), full run
1_000_000 ns over `max(10_000_000 // 20, 100) = 500_000` iterations
reports 2 ns/iteration, a nonnegative integer. -/
theorem C7_total_amended_witness :
    (10 : ℤ) ≤ 200
    ∧ (ns_per_iteration ⟨Except.ok 200, fun _ => Except.ok 1000000⟩).1
        = Except.ok (Int.fdiv 1000000 500000)
    ∧ (0 : ℤ) ≤ Int.fdiv 1000000 500000 := by
  have h := C7_total_amended ⟨Except.ok 200, fun _ => Except.ok 1000000⟩
    200 1000000 500000 rfl (by decide) (by decide) rfl (by decide)
  exact ⟨by decide, h.1, h.2⟩

/-- C2: confirmed.  For any requested kinds, `get_measurements` unions
all declared counters as a set (`buildEventSet` succeeds with the finset
union `eventFinset keys`), calls the counter facility exactly once — with
`list(event_set)`, an arbitrary duplicate-free enumeration of that set —
and a raw counter declared by two requested kinds appears exactly once in
that list, so the snippet runs in exactly one measurement pass for it. -/
theorem C2_counter_dedup (enumOf : Finset RawCounter → List RawCounter)
    (O : CounterOracle) (keys : List String) (cv : RawCounter → ℚ)
    (m1 m2 : String) (ev1 ev2 : List RawCounter) (pp1 pp2 : List ℚ → ℚ)
    (c : RawCounter)
    (hreg : ∀ m ∈ keys, (lookupMeas m).isSome)
    (hset : IsSetList (enumOf (eventFinset keys)) (eventFinset keys))
    (hm : O.measureRun (enumOf (eventFinset keys)) = Except.ok cv)
    (hs : O.snippetOnce = Except.ok ())
    (h1 : m1 ∈ keys) (h2 : m2 ∈ keys) (hne : m1 ≠ m2)
    (hl1 : lookupMeas m1 = some (ev1, pp1))
    (hl2 : lookupMeas m2 = some (ev2, pp2))
    (hc1 : c ∈ ev1) (hc2 : c ∈ ev2) :
    buildEventSet keys = Except.ok (eventFinset keys)
    ∧ (get_measurements enumOf O keys).2.measureCalls
        = [enumOf (eventFinset keys)]
    ∧ (enumOf (eventFinset keys)).count c = 1 := by
  have hcnt : (enumOf (eventFinset keys)).count c = 1 := by
    have hmem : c ∈ eventFinset keys :=
      mem_eventFinset_from_of keys ∅ m1 ev1 pp1 h1 hl1 c hc1
    rw [← hset.2] at hmem
    exact List.count_eq_one_of_mem hset.1 (by simpa using hmem)
  refine ⟨buildEventSet_from_ok keys ∅ hreg, ?_, hcnt⟩
  rw [get_measurements_ok enumOf O keys cv hreg hset hm hs]

/-- C2 witness: `"memory_cache_miss"` and `"memory_cache_refs"` both
declare the cache-references counter; requesting both yields a single
measure call whose counter list contains that counter exactly once. -/
theorem C2_counter_dedup_witness :
    (∀ m ∈ ["memory_cache_miss", "memory_cache_refs"], (lookupMeas m).isSome)
    ∧ IsSetList [RawCounter.cache_references, RawCounter.cache_misses]
        (eventFinset ["memory_cache_miss", "memory_cache_refs"])
    ∧ (get_measurements
        (fun _ => [RawCounter.cache_references, RawCounter.cache_misses])
        ⟨fun _ => Except.ok (fun _ => 3), Except.ok (), 0⟩
        ["memory_cache_miss", "memory_cache_refs"]).2.measureCalls
        = [[RawCounter.cache_references, RawCounter.cache_misses]]
    ∧ ([RawCounter.cache_references, RawCounter.cache_misses] :
        List RawCounter).count RawCounter.cache_references = 1 := by
  have h := C2_counter_dedup
    (fun _ => [RawCounter.cache_references, RawCounter.cache_misses])
    ⟨fun _ => Except.ok (fun _ => 3), Except.ok (), 0⟩
    ["memory_cache_miss", "memory_cache_refs"] (fun _ => 3)
    "memory_cache_miss" "memory_cache_refs"
    [RawCounter.cache_references, RawCounter.cache_misses]
    [RawCounter.cache_references] pp_miss_pct pp_single
    RawCounter.cache_references
    (by decide) (by decide) rfl rfl
    (by decide) (by decide) (by decide) rfl rfl (by decide) (by decide)
  exact ⟨by decide, by decide, h.2.1, h.2.2⟩

/-- C3: confirmed.  `get_measurements` applied to kinds `[a, b, a]`
returns the 3-element sequence `[derive a, derive b, derive a]` in
request order (`derive` invoked once per occurrence), while the counter
facility is still called exactly once, with each of the duplicated kind's
declared counters appearing exactly once in that single pass. -/
theorem C3_order_preservation (enumOf : Finset RawCounter → List RawCounter)
    (O : CounterOracle) (a b : String) (cv : RawCounter → ℚ) (c : RawCounter)
    (eva : List RawCounter) (ppa : List ℚ → ℚ)
    (hreg : ∀ m ∈ [a, b, a], (lookupMeas m).isSome)
    (hset : IsSetList (enumOf (eventFinset [a, b, a])) (eventFinset [a, b, a]))
    (hm : O.measureRun (enumOf (eventFinset [a, b, a])) = Except.ok cv)
    (hs : O.snippetOnce = Except.ok ())
    (hla : lookupMeas a = some (eva, ppa)) (hca : c ∈ eva) :
    (get_measurements enumOf O [a, b, a]).1 =
      Except.ok [deriveVal cv O.tracedPeak a, deriveVal cv O.tracedPeak b,
                 deriveVal cv O.tracedPeak a]
    ∧ (get_measurements enumOf O [a, b, a]).2.measureCalls
        = [enumOf (eventFinset [a, b, a])]
    ∧ (enumOf (eventFinset [a, b, a])).count c = 1 := by
  have hok := get_measurements_ok enumOf O [a, b, a] cv hreg hset hm hs
  have hcnt : (enumOf (eventFinset [a, b, a])).count c = 1 := by
    have hmem : c ∈ eventFinset [a, b, a] :=
      mem_eventFinset_from_of [a, b, a] ∅ a eva ppa (by simp) hla c hca
    rw [← hset.2] at hmem
    exact List.count_eq_one_of_mem hset.1 (by simpa using hmem)
  rw [hok]
  exact ⟨by simp, rfl, hcnt⟩

/-- C3 witness: requesting `["memory_cache_miss", "instructions",
"memory_cache_miss"]` yields three derived values in request order from a
single measure call in which the duplicated kind's counters occur once
each. -/
theorem C3_order_preservation_witness :
    (get_measurements
      (fun _ => [RawCounter.cache_references, RawCounter.cache_misses,
                 RawCounter.instructions])
      ⟨fun _ => Except.ok (fun _ => 4), Except.ok (), 0⟩
      ["memory_cache_miss", "instructions", "memory_cache_miss"]).1 =
      Except.ok
        [deriveVal (fun _ => 4) 0 "memory_cache_miss",
         deriveVal (fun _ => 4) 0 "instructions",
         deriveVal (fun _ => 4) 0 "memory_cache_miss"]
    ∧ (get_measurements
        (fun _ => [RawCounter.cache_references, RawCounter.cache_misses,
                   RawCounter.instructions])
        ⟨fun _ => Except.ok (fun _ => 4), Except.ok (), 0⟩
        ["memory_cache_miss", "instructions", "memory_cache_miss"]).2.measureCalls
        = [[RawCounter.cache_references, RawCounter.cache_misses,
            RawCounter.instructions]]
    ∧ ([RawCounter.cache_references, RawCounter.cache_misses,
        RawCounter.instructions] : List RawCounter).count
          RawCounter.cache_misses = 1 := by
  have h := C3_order_preservation
    (fun _ => [RawCounter.cache_references, RawCounter.cache_misses,
               RawCounter.instructions])
    ⟨fun _ => Except.ok (fun _ => 4), Except.ok (), 0⟩
    "memory_cache_miss" "instructions" (fun _ => 4) RawCounter.cache_misses
    [RawCounter.cache_references, RawCounter.cache_misses] pp_miss_pct
    (by decide) (by decide) rfl rfl rfl (by decide)
  exact ⟨h.1, h.2.1, h.2.2⟩

/-- C4, counterexample.  The claim says an unregistered kind makes
`get_measurements` fail before any snippet execution on *every* platform
path.  On the non-Linux path (`src/book_magics.py` lines 29-38) an
unregistered kind does not fail at all: it yields the placeholder string
`"N/A, Linux only"` as a normal result. -/
theorem C4_unknown_kind_counterexample :
    get_measurements_fallback (Except.ok 0) ["bogus_kind"] =
      Except.ok [FallbackVal.text "N/A, Linux only"] := rfl

/-- C4, amended.  On the Linux path, a request whose first unregistered
kind is `m0` fails with `KeyError(m0)` (the source has no
`UnknownMeasurementKind` type) raised by the catalog lookup in the first
loop, before the `measure` call and before any peak-memory measurement:
the execution trace is empty, i.e. zero snippet executions.  On the
non-Linux path the same request does not fail: the unregistered kind's
position holds the placeholder string `"N/A, Linux only"`. -/
theorem C4_unknown_kind_amended (enumOf : Finset RawCounter → List RawCounter)
    (O : CounterOracle) (pre : List String) (m0 : String)
    (rest : List String) (p : ℤ)
    (hpre : ∀ m ∈ pre, (lookupMeas m).isSome)
    (h0 : lookupMeas m0 = none) :
    get_measurements enumOf O (pre ++ m0 :: rest) =
      (Except.error (PyErr.keyErrorKind m0), ⟨[], 0⟩)
    ∧ get_measurements_fallback (Except.ok p) (pre ++ m0 :: rest) =
        Except.ok ((pre ++ m0 :: rest).map (fun k =>
          if k = "peak_memory" then FallbackVal.num p
          else FallbackVal.text "N/A, Linux only"))
    ∧ ((pre ++ m0 :: rest).map (fun k =>
          if k = "peak_memory" then FallbackVal.num p
          else FallbackVal.text "N/A, Linux only"))[pre.length]?
        = some (FallbackVal.text "N/A, Linux only") := by
  have hm0 : m0 ≠ "peak_memory" := by
    intro h
    rw [h] at h0
    have hpm : (lookupMeas "peak_memory").isSome = true := rfl
    rw [h0] at hpm
    simp at hpm
  refine ⟨?_, get_measurements_fallback_ok p _, ?_⟩
  · have hb := buildEventSet_from_err pre ∅ m0 rest hpre h0
    simp [get_measurements, buildEventSet, hb]
  · have hsplit : ((pre ++ m0 :: rest).map (fun k =>
        if k = "peak_memory" then FallbackVal.num p
        else FallbackVal.text "N/A, Linux only"))
        = pre.map (fun k => if k = "peak_memory" then FallbackVal.num p
            else FallbackVal.text "N/A, Linux only")
          ++ (if m0 = "peak_memory" then FallbackVal.num p
              else FallbackVal.text "N/A, Linux only")
            :: rest.map (fun k => if k = "peak_memory" then FallbackVal.num p
                else FallbackVal.text "N/A, Linux only") := by
      simp
    rw [hsplit, if_neg hm0]
    have hlen : pre.length = (pre.map (fun k =>
        if k = "peak_memory" then FallbackVal.num p
        else FallbackVal.text "N/A, Linux only")).length := by simp
    rw [hlen]
    exact getElem?_append_cons _ _ _

/-- C4 witness: `["instructions", "bogus"]` on the Linux path fails with
`KeyError("bogus")` and an empty execution trace, while the non-Linux
path returns a placeholder at the unregistered position. -/
theorem C4_unknown_kind_amended_witness :
    (∀ m ∈ ["instructions"], (lookupMeas m).isSome)
    ∧ get_measurements (fun _ => [])
        ⟨fun _ => Except.ok (fun _ => 0), Except.ok (), 0⟩
        (["instructions"] ++ "bogus" :: []) =
        (Except.error (PyErr.keyErrorKind "bogus"), ⟨[], 0⟩)
    ∧ ((["instructions"] ++ "bogus" :: []).map (fun k =>
          if k = "peak_memory" then FallbackVal.num 5
          else FallbackVal.text "N/A, Linux only"))[(["instructions"] :
            List String).length]?
        = some (FallbackVal.text "N/A, Linux only") := by
  have h := C4_unknown_kind_amended (fun _ => [])
    ⟨fun _ => Except.ok (fun _ => 0), Except.ok (), 0⟩
    ["instructions"] "bogus" [] 5 (by decide) rfl
  exact ⟨by decide, h.1, h.2.2⟩

/-- C5: confirmed.  On the success path of `get_measurements`, for every
requested registered kind the argument vector handed to its derivation
formula is `gather`ed as `events.map cv` — one observed value per entry
of the kind's declared `raw_counters`, positionally in declaration order
(the i-th argument is the observed value of the i-th declared counter) —
for *every* duplicate-free enumeration `enumOf` of the batched counter
set, i.e. independently of how the single measurement pass ordered the
counters. -/
theorem C5_derive_arity_alignment (enumOf : Finset RawCounter → List RawCounter)
    (O : CounterOracle) (keys : List String) (cv : RawCounter → ℚ)
    (m : String) (events : List RawCounter) (pp : List ℚ → ℚ)
    (hreg : ∀ m ∈ keys, (lookupMeas m).isSome)
    (hset : IsSetList (enumOf (eventFinset keys)) (eventFinset keys))
    (hm : O.measureRun (enumOf (eventFinset keys)) = Except.ok cv)
    (hs : O.snippetOnce = Except.ok ())
    (hmem : m ∈ keys) (hl : lookupMeas m = some (events, pp))
    (hnp : m ≠ "peak_memory") :
    gather (event_counts (enumOf (eventFinset keys)) cv) events
        = some (events.map cv)
    ∧ (events.map cv).length = events.length
    ∧ (get_measurements enumOf O keys).1
        = Except.ok (keys.map (deriveVal cv O.tracedPeak))
    ∧ deriveVal cv O.tracedPeak m = pp (events.map cv) := by
  have hsub : ∀ e ∈ events, e ∈ enumOf (eventFinset keys) := by
    intro e he
    have hmemf : e ∈ eventFinset keys :=
      mem_eventFinset_from_of keys ∅ m events pp hmem hl e he
    rw [← hset.2] at hmemf
    simpa using hmemf
  refine ⟨gather_eq_map _ cv events hsub, by simp, ?_, ?_⟩
  · rw [get_measurements_ok enumOf O keys cv hreg hset hm hs]
  · simp [deriveVal, hnp, hl]

/-- C5 witness: for `"branch_mispredictions"` among the requested kinds,
the derive arguments are the observed values of
`[branch_instructions, branch_misses]` in exactly that declared order. -/
theorem C5_derive_arity_alignment_witness :
    gather (event_counts [RawCounter.branch_instructions,
        RawCounter.branch_misses] (fun _ => 8))
      [RawCounter.branch_instructions, RawCounter.branch_misses]
      = some ([RawCounter.branch_instructions,
               RawCounter.branch_misses].map (fun _ => (8 : ℚ)))
    ∧ (get_measurements (fun _ => [RawCounter.branch_instructions,
          RawCounter.branch_misses])
        ⟨fun _ => Except.ok (fun _ => 8), Except.ok (), 0⟩
        ["branch_mispredictions"]).1
      = Except.ok (["branch_mispredictions"].map (deriveVal (fun _ => 8) 0))
    ∧ deriveVal (fun _ => 8) 0 "branch_mispredictions"
      = pp_miss_pct ([RawCounter.branch_instructions,
          RawCounter.branch_misses].map (fun _ => (8 : ℚ))) := by
  have h := C5_derive_arity_alignment
    (fun _ => [RawCounter.branch_instructions, RawCounter.branch_misses])
    ⟨fun _ => Except.ok (fun _ => 8), Except.ok (), 0⟩
    ["branch_mispredictions"] (fun _ => 8) "branch_mispredictions"
    [RawCounter.branch_instructions, RawCounter.branch_misses] pp_miss_pct
    (by decide) (by decide) rfl rfl (by decide) rfl (by decide)
  exact ⟨h.1, h.2.2.1, h.2.2.2⟩

/-- C8: confirmed.  `"peak_memory"` is registered with an empty
`raw_counters` list; it contributes nothing to the batched counter union
(dropping it from the request leaves `event_set` unchanged), and whenever
it is requested its reported value is the one produced by the separate
tracemalloc measurement `measure_peak_memory` — which starts tracking,
executes the snippet exactly once, reads the peak and stops tracking —
not a value derived from the counter-batching path. -/
theorem C8_peak_memory_special (enumOf : Finset RawCounter → List RawCounter)
    (O : CounterOracle) (pre post : List String) (cv : RawCounter → ℚ)
    (hreg : ∀ m ∈ pre ++ "peak_memory" :: post, (lookupMeas m).isSome)
    (hset : IsSetList (enumOf (eventFinset (pre ++ "peak_memory" :: post)))
        (eventFinset (pre ++ "peak_memory" :: post)))
    (hm : O.measureRun (enumOf (eventFinset (pre ++ "peak_memory" :: post)))
        = Except.ok cv)
    (hs : O.snippetOnce = Except.ok ()) :
    Option.map Prod.fst (lookupMeas "peak_memory") = some []
    ∧ eventFinset (pre ++ "peak_memory" :: post)
        = eventFinset ((pre ++ "peak_memory" :: post).filter
            (fun m => !(m == "peak_memory")))
    ∧ measure_peak_memory O.snippetOnce O.tracedPeak
        = (Except.ok O.tracedPeak, ⟨true, true, 1⟩)
    ∧ (get_measurements enumOf O (pre ++ "peak_memory" :: post)).1
        = Except.ok ((pre ++ "peak_memory" :: post).map
            (deriveVal cv O.tracedPeak))
    ∧ ((pre ++ "peak_memory" :: post).map
          (deriveVal cv O.tracedPeak))[pre.length]?
        = some ((O.tracedPeak : ℚ)) := by
  refine ⟨rfl, eventFinset_filter_peak _, by simp [measure_peak_memory, hs], ?_, ?_⟩
  · rw [get_measurements_ok enumOf O _ cv hreg hset hm hs]
  · have hsplit : ((pre ++ "peak_memory" :: post).map
        (deriveVal cv O.tracedPeak))
        = pre.map (deriveVal cv O.tracedPeak)
          ++ deriveVal cv O.tracedPeak "peak_memory"
            :: post.map (deriveVal cv O.tracedPeak) := by
      simp
    rw [hsplit]
    have hlen : pre.length = (pre.map (deriveVal cv O.tracedPeak)).length := by
      simp
    rw [hlen, getElem?_append_cons]
    simp [deriveVal]

/-- C8 witness: requesting `["instructions", "peak_memory"]`, the peak
position reports the tracemalloc peak (42) while the counter pass batches
only the `instructions` counter. -/
theorem C8_peak_memory_special_witness :
    Option.map Prod.fst (lookupMeas "peak_memory") = some []
    ∧ measure_peak_memory (Except.ok ()) 42 = (Except.ok 42, ⟨true, true, 1⟩)
    ∧ (get_measurements (fun _ => [RawCounter.instructions])
        ⟨fun _ => Except.ok (fun _ => 7), Except.ok (), 42⟩
        (["instructions"] ++ "peak_memory" :: [])).1
      = Except.ok ((["instructions"] ++ "peak_memory" :: []).map
          (deriveVal (fun _ => 7) 42))
    ∧ ((["instructions"] ++ "peak_memory" :: []).map
        (deriveVal (fun _ => 7) 42))[(["instructions"] : List String).length]?
      = some ((42 : ℤ) : ℚ) := by
  have h := C8_peak_memory_special (fun _ => [RawCounter.instructions])
    ⟨fun _ => Except.ok (fun _ => 7), Except.ok (), 42⟩
    ["instructions"] [] (fun _ => 7)
    (by decide) (by decide) rfl rfl
  exact ⟨h.1, h.2.2.1, h.2.2.2.1, h.2.2.2.2⟩

/-- Successful processing of a non-blank first line decomposes into a
successful calibration, successful measurements, a successful rest, and
the assembled row. -/
theorem benchmark_lines_cons_ok (enumOf : Finset RawCounter → List RawCounter)
    (O : String → LineOracle) (ms : List String) (line : String)
    (rest : List String) (rows : List BenchmarkRow)
    (hs : ¬ pyStrip line = "")
    (h : benchmark_lines enumOf O (line :: rest) ms = Except.ok rows) :
    ∃ ns vals rows2,
      (ns_per_iteration (O (pyStrip line)).timing).1 = Except.ok ns
      ∧ ((ms.isEmpty = true ∧ vals = ([] : List ℚ))
         ∨ (ms.isEmpty = false
            ∧ (get_measurements enumOf (O (pyStrip line)).counters ms).1
                = Except.ok vals))
      ∧ benchmark_lines enumOf O rest ms = Except.ok rows2
      ∧ rows = { label := "`" ++ pyStrip line ++ "`", elapsed_ns := ns,
                 meas := vals } :: rows2 := by
  cases hns : (ns_per_iteration (O (pyStrip line)).timing).1 with
  | error e => simp [benchmark_lines, if_neg hs, hns] at h
  | ok ns =>
    cases ms with
    | nil =>
      cases hr : benchmark_lines enumOf O rest [] with
      | error e => simp [benchmark_lines, if_neg hs, hns, hr] at h
      | ok rows2 =>
        simp [benchmark_lines, if_neg hs, hns, hr] at h
        exact ⟨ns, [], rows2, rfl, Or.inl ⟨rfl, rfl⟩, rfl, h.symm⟩
    | cons m0 ms' =>
      cases hv : (get_measurements enumOf
          (O (pyStrip line)).counters (m0 :: ms')).1 with
      | error e => simp [benchmark_lines, if_neg hs, hns, hv] at h
      | ok vals =>
        cases hr : benchmark_lines enumOf O rest (m0 :: ms') with
        | error e => simp [benchmark_lines, if_neg hs, hns, hv, hr] at h
        | ok rows2 =>
          simp [benchmark_lines, if_neg hs, hns, hv, hr] at h
          exact ⟨ns, vals, rows2, rfl, Or.inr ⟨rfl, rfl⟩, rfl, h.symm⟩

/-- Prepending lines that all succeed prepends their rows; the remainder
of the cell is processed unchanged. -/
theorem benchmark_lines_append (enumOf : Finset RawCounter → List RawCounter)
    (O : String → LineOracle) (ms : List String) :
    ∀ (pre : List String) (rows : List BenchmarkRow),
      benchmark_lines enumOf O pre ms = Except.ok rows →
      ∀ cell2 : List String,
        benchmark_lines enumOf O (pre ++ cell2) ms =
          (match benchmark_lines enumOf O cell2 ms with
           | Except.error e => Except.error e
           | Except.ok rows2 => Except.ok (rows ++ rows2)) := by
  intro pre
  induction pre with
  | nil =>
    intro rows h cell2
    simp only [benchmark_lines] at h
    have hrows : rows = [] := by
      injection h with h2
      exact h2.symm
    subst hrows
    simp only [List.nil_append]
    cases benchmark_lines enumOf O cell2 ms <;> simp
  | cons line rest ih =>
    intro rows h cell2
    by_cases hs : pyStrip line = ""
    · have hstep : benchmark_lines enumOf O (line :: rest) ms
          = benchmark_lines enumOf O rest ms := by
        simp [benchmark_lines, hs]
      have hstep2 : benchmark_lines enumOf O ((line :: rest) ++ cell2) ms
          = benchmark_lines enumOf O (rest ++ cell2) ms := by
        simp [benchmark_lines, hs]
      rw [hstep] at h
      rw [hstep2]
      exact ih rows h cell2
    · obtain ⟨ns, vals, rows2, hns, hv, hr, hrw⟩ :=
        benchmark_lines_cons_ok enumOf O ms line rest rows hs h
      have hihr := ih rows2 hr cell2
      subst hrw
      cases hc : benchmark_lines enumOf O cell2 ms with
      | error e =>
        rw [hc] at hihr
        have hihr2 : benchmark_lines enumOf O (rest ++ cell2) ms
            = Except.error e := hihr
        rcases hv with ⟨hempty, rfl⟩ | ⟨hempty, hgm⟩
        · simp [benchmark_lines, if_neg hs, hns, hempty, hihr2]
        · simp [benchmark_lines, if_neg hs, hns, hempty, hgm, hihr2]
      | ok rows2' =>
        rw [hc] at hihr
        have hihr2 : benchmark_lines enumOf O (rest ++ cell2) ms
            = Except.ok (rows2 ++ rows2') := hihr
        rcases hv with ⟨hempty, rfl⟩ | ⟨hempty, hgm⟩
        · simp [benchmark_lines, if_neg hs, hns, hempty, hihr2]
        · simp [benchmark_lines, if_neg hs, hns, hempty, hgm, hihr2]

/-- C9: confirmed.  If a snippet raises in any phase — the calibration
probe or full timing run (an error from `ns_per_iteration`) or the
counter-aggregation pass (an error from `get_measurements`, only reached
when measurements were requested) — the same error propagates unmodified
through `_benchmark_lines` and `compare_timing`: the whole batch result
is that error (no retry), the rows of the already-processed prefix are
discarded and no partial row is emitted for the failing snippet, and the
remaining lines `rest` — over which the conclusion is universally
quantified — are never consulted. -/
theorem C9_error_propagation (enumOf : Finset RawCounter → List RawCounter)
    (O : String → LineOracle) (ms : List String) (jit_pre : Bool)
    (pre : List String) (rows0 : List BenchmarkRow)
    (line : String) (rest : List String) (e : PyErr)
    (hpre : benchmark_lines enumOf O pre ms = Except.ok rows0)
    (hs : ¬ pyStrip line = "")
    (hfail :
      (ns_per_iteration ((O (pyStrip line)).timing)).1 = Except.error e
      ∨ ((∃ v, (ns_per_iteration ((O (pyStrip line)).timing)).1 = Except.ok v)
         ∧ ms ≠ []
         ∧ (get_measurements enumOf ((O (pyStrip line)).counters) ms).1
             = Except.error e)) :
    benchmark_lines enumOf O (pre ++ line :: rest) ms = Except.error e
    ∧ compare_timing enumOf O (pre ++ line :: rest) ms jit_pre
        = (Except.error e, true) := by
  have hline : benchmark_lines enumOf O (line :: rest) ms = Except.error e := by
    rcases hfail with hf | ⟨⟨v, hv⟩, hms, hgm⟩
    · simp [benchmark_lines, if_neg hs, hf]
    · have hempty : ms.isEmpty = false := by
        cases ms with
        | nil => simp at hms
        | cons a l => rfl
      simp [benchmark_lines, if_neg hs, hv, hempty, hgm]
  have happ := benchmark_lines_append enumOf O ms pre rows0 hpre (line :: rest)
  rw [hline] at happ
  have hb : benchmark_lines enumOf O (pre ++ line :: rest) ms
      = Except.error e := by simpa using happ
  exact ⟨hb, by simp [compare_timing, hb]⟩

/-- C9 witness: a two-line batch whose first line's probe raises; the
error surfaces unmodified from both `_benchmark_lines` and
`compare_timing`, with no rows. -/
theorem C9_error_propagation_witness :
    ¬ pyStrip "g()" = ""
    ∧ benchmark_lines (fun _ => [])
        (fun _ =>
          ⟨⟨Except.error (PyErr.snippetError "x"), fun _ => Except.ok 0⟩,
           ⟨fun _ => Except.ok (fun _ => 0), Except.ok (), 0⟩⟩)
        ([] ++ "g()" :: ["h()"]) [] = Except.error (PyErr.snippetError "x")
    ∧ compare_timing (fun _ => [])
        (fun _ =>
          ⟨⟨Except.error (PyErr.snippetError "x"), fun _ => Except.ok 0⟩,
           ⟨fun _ => Except.ok (fun _ => 0), Except.ok (), 0⟩⟩)
        ([] ++ "g()" :: ["h()"]) [] true
        = (Except.error (PyErr.snippetError "x"), true) := by
  have h := C9_error_propagation (fun _ => [])
    (fun _ =>
      ⟨⟨Except.error (PyErr.snippetError "x"), fun _ => Except.ok 0⟩,
       ⟨fun _ => Except.ok (fun _ => 0), Except.ok (), 0⟩⟩)
    [] true [] [] "g()" ["h()"] (PyErr.snippetError "x")
    rfl (by decide) (Or.inl rfl)
  exact ⟨by decide, h.1, h.2⟩

/-- C10: confirmed.  A successful `_benchmark_lines` run produces exactly
one row per line that is non-empty after stripping, in line order —
whitespace-only and empty lines produce no row — and each row's label is
the stripped line text wrapped in backticks, not the original line. -/
theorem C10_row_per_nonblank_line (enumOf : Finset RawCounter → List RawCounter)
    (O : String → LineOracle) (ms : List String) :
    ∀ (cell : List String) (rows : List BenchmarkRow),
      benchmark_lines enumOf O cell ms = Except.ok rows →
      rows.map (fun r => r.label)
        = ((cell.map pyStrip).filter (fun s => !(s == ""))).map
            (fun s => "`" ++ s ++ "`")
      ∧ rows.length
        = ((cell.map pyStrip).filter (fun s => !(s == ""))).length := by
  intro cell
  induction cell with
  | nil =>
    intro rows h
    simp only [benchmark_lines] at h
    have hrows : rows = [] := by
      injection h with h2
      exact h2.symm
    subst hrows
    simp
  | cons line rest ih =>
    intro rows h
    by_cases hs : pyStrip line = ""
    · have hstep : benchmark_lines enumOf O (line :: rest) ms
          = benchmark_lines enumOf O rest ms := by
        simp [benchmark_lines, hs]
      rw [hstep] at h
      obtain ⟨h1, h2⟩ := ih rows h
      exact ⟨by simpa [hs] using h1, by simpa [hs] using h2⟩
    · obtain ⟨ns, vals, rows2, hns, hv, hr, hrw⟩ :=
        benchmark_lines_cons_ok enumOf O ms line rest rows hs h
      obtain ⟨h1, h2⟩ := ih rows2 hr
      subst hrw
      refine ⟨?_, ?_⟩
      · simp [hs, h1]
      · simp [hs, h2]

/-- C10 witness: a cell with two code lines, an empty line and a
whitespace-only line yields exactly two rows, labelled with the stripped
backticked code lines in order. -/
theorem C10_row_per_nonblank_line_witness :
    benchmark_lines (fun _ => [])
      (fun _ => ⟨⟨Except.ok 1000, fun _ => Except.ok 12345⟩,
                 ⟨fun _ => Except.ok (fun _ => 0), Except.ok (), 0⟩⟩)
      ["x = 1", "", "   ", " y = x "] []
      = Except.ok
          [{ label := "`x = 1`", elapsed_ns := Int.fdiv 12345 100000,
             meas := [] },
           { label := "`y = x`", elapsed_ns := Int.fdiv 12345 100000,
             meas := [] }]
    ∧ ([{ label := "`x = 1`", elapsed_ns := Int.fdiv 12345 100000,
          meas := ([] : List ℚ) },
        { label := "`y = x`", elapsed_ns := Int.fdiv 12345 100000,
          meas := [] }] : List BenchmarkRow).map (fun r => r.label)
      = (((["x = 1", "", "   ", " y = x "] : List String).map pyStrip).filter
          (fun s => !(s == ""))).map (fun s => "`" ++ s ++ "`") := by
  have hb : benchmark_lines (fun _ => [])
      (fun _ => ⟨⟨Except.ok 1000, fun _ => Except.ok 12345⟩,
                 ⟨fun _ => Except.ok (fun _ => 0), Except.ok (), 0⟩⟩)
      ["x = 1", "", "   ", " y = x "] []
      = Except.ok
          [{ label := "`x = 1`", elapsed_ns := Int.fdiv 12345 100000,
             meas := [] },
           { label := "`y = x`", elapsed_ns := Int.fdiv 12345 100000,
             meas := [] }] := rfl
  have h := C10_row_per_nonblank_line (fun _ => [])
    (fun _ => ⟨⟨Except.ok 1000, fun _ => Except.ok 12345⟩,
               ⟨fun _ => Except.ok (fun _ => 0), Except.ok (), 0⟩⟩)
    [] ["x = 1", "", "   ", " y = x "] _ hb
  exact ⟨hb, h.1⟩

end LLPerf
